import Mathlib

set_option maxRecDepth 100000

/-!
Verification of the response-validation core of the sports-stories generator
(`story_parser.py`).  The Python functions `_clean_response`, `_parse_json`,
`_validate_schema`, `_write_json` and `parse_and_save` are shallowly embedded
below over `List Char` (raw text) and an inductive `Json` type mirroring what
`json.loads` produces.  Console prints and file writes are modelled as an
explicit effect trace.  Whitespace classes are restricted to their ASCII
members (the inputs of interest are ASCII).
-/

namespace SportsStories

/-- The backtick character (written via its code point). -/
def btick : Char := Char.ofNat 96

/-- The opening brace character (written via its code point). -/
def obrace : Char := Char.ofNat 123

/-- The closing brace character (written via its code point). -/
def cbrace : Char := Char.ofNat 125

/-- ASCII whitespace as recognised by Python's `str.strip` and by the
regex class in the cleaning patterns: space, tab, newline, carriage
return, vertical tab, form feed. -/
def isPySpace (c : Char) : Bool :=
  c = ' ' || c = '\t' || c = '\n' || c = '\r' || c = Char.ofNat 11 || c = Char.ofNat 12

/-- Python `str.lstrip()`. -/
def lstrip (s : List Char) : List Char := s.dropWhile isPySpace

/-- Python `str.rstrip()`. -/
def rstrip (s : List Char) : List Char := (s.reverse.dropWhile isPySpace).reverse

/-- Python `str.strip()`: drop whitespace from both ends. -/
def pstrip (s : List Char) : List Char := rstrip (lstrip s)

/-- The four characters of the literal tag accepted by the opening-fence
pattern. -/
def jsonTag : List Char := ("json").toList

/-- After the three backticks of a fence match, the regex
consumes an optional literal "json". -/
def dropJson (s : List Char) : List Char :=
  if s.take 4 = jsonTag then s.drop 4 else s

/-- After the backticks and the optional tag, the pattern greedily
consumes whitespace. -/
def afterTick (s : List Char) : List Char :=
  (dropJson s).dropWhile isPySpace

theorem afterTick_length_le (s : List Char) : (afterTick s).length ≤ s.length := by
  unfold afterTick dropJson
  split
  · exact le_trans (List.dropWhile_sublist _).length_le (by simp)
  · exact (List.dropWhile_sublist _).length_le

/-- Embeds the first cleaning substitution of `_clean_response`
(the fence-removal regex substitution on three backticks followed by an
optional "json" tag and optional whitespace, replaced by the empty
string, scanning left to right and resuming after each match). -/
def sub1 : List Char → List Char
  | [] => []
  | c :: t =>
    if c = btick ∧ t.take 2 = [btick, btick] then sub1 (afterTick (t.drop 2))
    else c :: sub1 t
termination_by s => s.length
decreasing_by
  · have h1 : (afterTick (t.drop 2)).length ≤ (t.drop 2).length := afterTick_length_le _
    simp only [List.length_drop, List.length_cons] at *
    omega
  · simp

/-- Index (0-based) of the last newline in a list, if any. -/
def lastNl : List Char → Option Nat
  | [] => none
  | c :: t =>
    match lastNl t with
    | some k => some (k + 1)
    | none => if c = '\n' then some 0 else none

theorem lastNl_lt_length : ∀ {s : List Char} {k : Nat}, lastNl s = some k → k < s.length := by
  intro s
  induction s with
  | nil => intro k h; simp [lastNl] at h
  | cons c t ih =>
    intro k h
    simp only [lastNl] at h
    split at h
    · rename_i j hj
      cases h
      have := ih hj
      simp only [List.length_cons]
      omega
    · split at h
      · cases h; simp
      · cases h

/-- Attempts the tail of the closing-fence pattern starting right after
three backticks: greedily consume whitespace, succeeding only at end of
string or just before a newline (the multiline end-of-line anchor).
Returns the rest of the input after the match, `none` if the anchor can
never be satisfied. -/
def matchWsToEol (s : List Char) : Option (List Char) :=
  if (s.takeWhile isPySpace).length = s.length then some []
  else
    match lastNl (s.takeWhile isPySpace) with
    | some k => some (s.drop k)
    | none => none

theorem matchWsToEol_length_le {s r : List Char} (h : matchWsToEol s = some r) :
    r.length ≤ s.length := by
  unfold matchWsToEol at h
  split at h
  · cases h; simp
  · split at h
    · cases h; simp
    · cases h

/-- Embeds the second cleaning substitution of `_clean_response` (the
multiline substitution removing a closing fence of three backticks
followed by whitespace up to an end of line). -/
def sub2 : List Char → List Char
  | [] => []
  | c :: t =>
    if h : c = btick ∧ t.take 2 = [btick, btick] ∧ (matchWsToEol (t.drop 2)).isSome then
      sub2 ((matchWsToEol (t.drop 2)).getD [])
    else c :: sub2 t
termination_by s => s.length
decreasing_by
  · obtain ⟨-, -, hs⟩ := h
    obtain ⟨r, hr⟩ := Option.isSome_iff_exists.mp hs
    have h1 := matchWsToEol_length_le hr
    rw [hr]
    simp only [Option.getD_some, List.length_drop, List.length_cons] at *
    omega
  · simp

/-- Fuelled twin of `sub1`, used to evaluate it on concrete inputs. -/
def sub1F : Nat → List Char → List Char
  | 0, _ => []
  | Nat.succ _, [] => []
  | Nat.succ f, c :: t =>
    if c = btick ∧ t.take 2 = [btick, btick] then sub1F f (afterTick (t.drop 2))
    else c :: sub1F f t

/-- Fuelled twin of `sub2`, used to evaluate it on concrete inputs. -/
def sub2F : Nat → List Char → List Char
  | 0, _ => []
  | Nat.succ _, [] => []
  | Nat.succ f, c :: t =>
    if c = btick ∧ t.take 2 = [btick, btick] then
      match matchWsToEol (t.drop 2) with
      | some r => sub2F f r
      | none => c :: sub2F f t
    else c :: sub2F f t

theorem sub1F_eq : ∀ (f : Nat) (s : List Char), s.length ≤ f → sub1F f s = sub1 s := by
  intro f
  induction f with
  | zero =>
    intro s hs
    have : s = [] := List.length_eq_zero.mp (Nat.le_zero.mp hs)
    subst this
    simp [sub1F, sub2F, sub1, sub2]
  | succ f ih =>
    intro s hs
    match s with
    | [] => simp [sub1F, sub1]
    | c :: t =>
      rw [sub1F, sub1]
      split
      · apply ih
        have h1 : (afterTick (t.drop 2)).length ≤ (t.drop 2).length := afterTick_length_le _
        simp only [List.length_cons, List.length_drop] at *
        omega
      · rw [ih t (by simpa using Nat.lt_succ_iff.mp (Nat.lt_of_lt_of_le (by simp) hs))]

theorem sub2F_eq : ∀ (f : Nat) (s : List Char), s.length ≤ f → sub2F f s = sub2 s := by
  intro f
  induction f with
  | zero =>
    intro s hs
    have : s = [] := List.length_eq_zero.mp (Nat.le_zero.mp hs)
    subst this
    simp [sub1F, sub2F, sub1, sub2]
  | succ f ih =>
    intro s hs
    match s with
    | [] => simp [sub2F, sub2]
    | c :: t =>
      rw [sub2F, sub2]
      have ht : t.length ≤ f := by
        simp only [List.length_cons] at hs
        omega
      by_cases hc : c = btick ∧ t.take 2 = [btick, btick]
      · rw [if_pos hc]
        cases hm : matchWsToEol (t.drop 2) with
        | some r =>
          have hr : r.length ≤ f := by
            have h1 := matchWsToEol_length_le hm
            simp only [List.length_drop] at h1
            omega
          rw [dif_pos ⟨hc.1, hc.2, by simp⟩]
          exact ih r hr
        | none =>
          rw [dif_neg (by simp)]
          exact congrArg (c :: ·) (ih t ht)
      · rw [if_neg hc, dif_neg (fun hcon => hc ⟨hcon.1, hcon.2.1⟩)]
        exact congrArg (c :: ·) (ih t ht)

theorem sub1_sublist : ∀ s : List Char, (sub1 s).Sublist s := by
  intro s
  induction s using sub1.induct with
  | case1 => rw [sub1]
  | case2 c t hc ih =>
    rw [sub1, if_pos hc]
    refine List.Sublist.trans ih ?_
    refine List.Sublist.trans (List.dropWhile_sublist _) ?_
    refine List.Sublist.cons _ ?_
    unfold dropJson
    split
    · exact List.Sublist.trans (List.drop_sublist _ _) (List.drop_sublist _ _)
    · exact List.drop_sublist _ _
  | case3 c t hc ih =>
    rw [sub1, if_neg hc]
    exact List.Sublist.cons₂ _ ih

theorem lstrip_sublist (s : List Char) : (lstrip s).Sublist s :=
  List.dropWhile_sublist _

theorem rstrip_sublist (s : List Char) : (rstrip s).Sublist s := by
  have h : (s.reverse.dropWhile isPySpace).Sublist s.reverse :=
    List.dropWhile_sublist _
  simpa using h.reverse

theorem pstrip_sublist (s : List Char) : (pstrip s).Sublist s :=
  List.Sublist.trans (rstrip_sublist _) (lstrip_sublist _)

/-- Python `str.find(ch)`: index of the first occurrence, `none` for -1. -/
def findCh (ch : Char) : List Char → Option Nat
  | [] => none
  | c :: t => if c = ch then some 0 else (findCh ch t).map (· + 1)

/-- Python `str.rfind(ch)`: index of the last occurrence, `none` for -1. -/
def rfindCh (ch : Char) (s : List Char) : Option Nat :=
  (findCh ch s.reverse).map (fun j => s.length - 1 - j)

/-- The whitespace-trimmed, fence-stripped text produced by the first
half of `_clean_response`, before brace extraction. -/
def cleanedText (raw : List Char) : List Char :=
  sub2 (sub1 (pstrip raw))

/-- Evaluates `cleanedText` through the fuelled twins, for concrete
computation. -/
theorem cleanedText_eval (raw : List Char) :
    cleanedText raw = sub2F (raw.length + 1) (sub1F (raw.length + 1) (pstrip raw)) := by
  have h1 : (pstrip raw).length ≤ raw.length + 1 :=
    le_trans (pstrip_sublist raw).length_le (Nat.le_succ _)
  rw [cleanedText, sub1F_eq _ _ h1, sub2F_eq]
  exact le_trans (sub1_sublist _).length_le h1


/-- JSON values as produced by `json.loads`.  Object entries are kept in
insertion order with duplicate keys collapsed as Python's `dict` does;
strings are lists of code points (allowing lone surrogates, which
Python permits); numbers keep their source lexeme, which is all the
validator ever inspects. -/
inductive Json
  | obj (entries : List (List Nat × Json))
  | arr (elems : List Json)
  | str (codePoints : List Nat)
  | num (lexeme : List Char)
  | bool (b : Bool)
  | null

/-- Error taxonomy of the validator, with the diagnostic payloads the
Python `ValueError` messages carry (text excerpts, field names, key
lists, slide positions). -/
inductive VErr
  /-- No opening or no closing brace in the cleaned text; carries the
  first 200 characters of the original raw response. -/
  | noJsonFound (rawExcerpt : List Char)
  /-- The extracted span is not valid JSON; carries the first 300
  characters of the cleaned string. -/
  | malformedJson (cleanedExcerpt : List Char)
  /-- A required top-level key is absent; carries the key and the keys
  actually present. -/
  | missingField (field : List Nat) (keysPresent : List (List Nat))
  /-- The value under "slides" is not a list; carries the Python type
  name of the actual value. -/
  | wrongType (actualTypeName : List Char)
  /-- A slide's type tag is outside the known set; carries the 1-based
  slide position and the offending value of the "type" entry (`none`
  when the key is absent). -/
  | unknownSlideType (pos : Nat) (tyVal : Option Json)
  /-- A slide lacks a field required by its declared type; carries the
  1-based position, the declared type, the missing field and the keys
  present. -/
  | missingSlideField (pos : Nat) (slideType : List Nat) (field : List Nat)
      (keysPresent : List (List Nat))
  /-- Models the distinct Python failure (an `AttributeError` from
  `slide.get`) when a slide is not a mapping. -/
  | slideNotMapping (pos : Nat)
  /-- Models the distinct Python failure when the decoded top-level
  value is not a mapping; proven unreachable from the pipeline. -/
  | notAnObject

/-- Shorthand for the code points of a string literal. -/
def js (s : String) : List Nat := s.toList.map Char.toNat

/-- Key lookup in a decoded object (Python `d[k]` / `d.get(k)`). -/
def lookupKey : List (List Nat × Json) → List Nat → Option Json
  | [], _ => none
  | (k', v) :: t, k => if k' = k then some v else lookupKey t k

/-- Python `k in d`. -/
def hasKey (kvs : List (List Nat × Json)) (k : List Nat) : Bool :=
  (lookupKey kvs k).isSome

/-- Python `list(d.keys())`. -/
def objKeys (kvs : List (List Nat × Json)) : List (List Nat) :=
  kvs.map Prod.fst

/-- Replaces the value at the first occurrence of a key. -/
def replaceVal : List (List Nat × Json) → List Nat → Json → List (List Nat × Json)
  | [], _, _ => []
  | (k', v') :: t, k, v =>
    if k' = k then (k', v) :: t else (k', v') :: replaceVal t k v

/-- Python `dict` insertion: a duplicate key keeps its first position
but takes the last value. -/
def objInsert (kvs : List (List Nat × Json)) (k : List Nat) (v : Json) :
    List (List Nat × Json) :=
  if hasKey kvs k then replaceVal kvs k v else kvs ++ [(k, v)]

/-- JSON whitespace as skipped by `json.loads` between tokens: space,
tab, newline, carriage return. -/
def isJws (c : Char) : Bool :=
  c = ' ' || c = '\t' || c = '\n' || c = '\r'

/-- Skips JSON whitespace. -/
def skipJws (s : List Char) : List Char := s.dropWhile isJws

/-- Value of a hexadecimal digit. -/
def hexVal : Char → Option Nat
  | c =>
    if '0' ≤ c ∧ c ≤ '9' then some (c.toNat - 48)
    else if 'a' ≤ c ∧ c ≤ 'f' then some (c.toNat - 87)
    else if 'A' ≤ c ∧ c ≤ 'F' then some (c.toNat - 55)
    else none

/-- Code point of a single-character escape, as accepted by the strict
JSON string scanner. -/
def escCode : Char → Option Nat
  | '"' => some 34
  | '\\' => some 92
  | '/' => some 47
  | 'b' => some 8
  | 'f' => some 12
  | 'n' => some 10
  | 'r' => some 13
  | 't' => some 9
  | _ => none

/-- Scans a JSON string body (the opening quote already consumed),
returning the decoded code points and the rest of the input.  Mirrors
the strict scanner: unescaped control characters are rejected, `\\u`
escapes with four hex digits are decoded, a high surrogate immediately
followed by a `\\u` low surrogate is joined into one code point, and a
lone surrogate is kept as is. -/
def parseStringF : Nat → List Char → Option (List Nat × List Char)
  | 0, _ => none
  | Nat.succ _, [] => none
  | Nat.succ _, '"' :: t => some ([], t)
  | Nat.succ f, '\\' :: 'u' :: h1 :: h2 :: h3 :: h4 :: '\\' :: 'u' :: g1 :: g2 :: g3 :: g4 :: t2 =>
    match hexVal h1, hexVal h2, hexVal h3, hexVal h4 with
    | some a, some b, some c, some d =>
      let code := ((a * 16 + b) * 16 + c) * 16 + d
      if 0xd800 ≤ code ∧ code < 0xdc00 then
        match hexVal g1, hexVal g2, hexVal g3, hexVal g4 with
        | some a2, some b2, some c2, some d2 =>
          let code2 := ((a2 * 16 + b2) * 16 + c2) * 16 + d2
          if 0xdc00 ≤ code2 ∧ code2 < 0xe000 then
            (parseStringF f t2).map
              (fun p => ((0x10000 + (code - 0xd800) * 0x400 + (code2 - 0xdc00)) :: p.1, p.2))
          else
            (parseStringF f ('\\' :: 'u' :: g1 :: g2 :: g3 :: g4 :: t2)).map
              (fun p => (code :: p.1, p.2))
        | _, _, _, _ => none
      else
        (parseStringF f ('\\' :: 'u' :: g1 :: g2 :: g3 :: g4 :: t2)).map
          (fun p => (code :: p.1, p.2))
    | _, _, _, _ => none
  | Nat.succ f, '\\' :: 'u' :: h1 :: h2 :: h3 :: h4 :: t =>
    match hexVal h1, hexVal h2, hexVal h3, hexVal h4 with
    | some a, some b, some c, some d =>
      let code := ((a * 16 + b) * 16 + c) * 16 + d
      (parseStringF f t).map (fun p => (code :: p.1, p.2))
    | _, _, _, _ => none
  | Nat.succ f, '\\' :: e :: t =>
    match escCode e with
    | some n => (parseStringF f t).map (fun p => (n :: p.1, p.2))
    | none => none
  | Nat.succ f, c :: t =>
    if c.toNat < 32 then none
    else (parseStringF f t).map (fun p => (c.toNat :: p.1, p.2))

/-- Scans a JSON string body with enough fuel for its own length. -/
def parseString (s : List Char) : Option (List Nat × List Char) :=
  parseStringF (s.length + 1) s

/-- Decimal digit test. -/
def isDig (c : Char) : Bool := '0' ≤ c && c ≤ '9'

/-- Consumes the optional fraction and exponent groups of the number
regex after a matched integer part, returning the full lexeme and the
rest. -/
def numTail (intPart : List Char) (rest : List Char) : List Char × List Char :=
  let fr :=
    match rest with
    | '.' :: t =>
      let ds := t.takeWhile isDig
      if ds = [] then ([], rest) else ('.' :: ds, t.dropWhile isDig)
    | _ => ([], rest)
  let r1 := fr.2
  let ex :=
    match r1 with
    | e :: t =>
      if e = 'e' || e = 'E' then
        match t with
        | sg :: t2 =>
          if sg = '+' || sg = '-' then
            let ds := t2.takeWhile isDig
            if ds = [] then ([], r1) else (e :: sg :: ds, t2.dropWhile isDig)
          else
            let ds := t.takeWhile isDig
            if ds = [] then ([], r1) else (e :: ds, t.dropWhile isDig)
        | [] => ([], r1)
      else ([], r1)
    | [] => ([], r1)
  (intPart ++ fr.1 ++ ex.1, ex.2)

/-- Matches the number regex of the scanner
(optional minus, integer part `0` or nonzero-led digits, optional
fraction, optional exponent), returning the lexeme and the rest of the
input, or `none` when the regex does not match at this position. -/
def parseNumber (s : List Char) : Option (List Char × List Char) :=
  let signed := match s with
    | '-' :: t => (['-'], t)
    | _ => (([] : List Char), s)
  match signed.2 with
  | '0' :: t => some (numTail (signed.1 ++ ['0']) t)
  | c :: t =>
    if isDig c then
      some (numTail (signed.1 ++ c :: t.takeWhile isDig) (t.dropWhile isDig))
    else none
  | [] => none

/-- Parses the keyword and number alternatives of the scanner, in its
order: `true`, `false`, `null`, then the number regex, then the
non-standard constants `NaN`, `Infinity`, `-Infinity`. -/
def parseAtom (s : List Char) : Option (Json × List Char) :=
  if s.take 4 = ("true").toList then some (.bool true, s.drop 4)
  else if s.take 5 = ("false").toList then some (.bool false, s.drop 5)
  else if s.take 4 = ("null").toList then some (.null, s.drop 4)
  else
    match parseNumber s with
    | some (lex, r) => some (.num lex, r)
    | none =>
      if s.take 3 = ("NaN").toList then some (.num ("NaN").toList, s.drop 3)
      else if s.take 8 = ("Infinity").toList then some (.num ("Infinity").toList, s.drop 8)
      else if s.take 9 = ("-Infinity").toList then some (.num ("-Infinity").toList, s.drop 9)
      else none

mutual

/-- Recursive-descent JSON value parser with a fuel bound on recursion
depth, mirroring `json.loads`'s scanner at the positions where it is
invoked (no leading whitespace). -/
def parseVal : Nat → List Char → Option (Json × List Char)
  | 0, _ => none
  | Nat.succ f, s =>
    match s with
    | [] => none
    | c :: t =>
      if c = obrace then
        match skipJws t with
        | c2 :: t2 =>
          if c2 = cbrace then some (.obj [], t2)
          else (membersLoop f [] (c2 :: t2)).map (fun p => (Json.obj p.1, p.2))
        | [] => none
      else if c = '[' then
        match skipJws t with
        | ']' :: t2 => some (.arr [], t2)
        | s2 => (elemsLoop f [] s2).map (fun p => (Json.arr p.1, p.2))
      else if c = '"' then
        (parseString t).map (fun p => (Json.str p.1, p.2))
      else parseAtom s

/-- Parses the members of a JSON object after the opening brace (input
positioned at the first key), accumulating entries with `dict`
semantics. -/
def membersLoop : Nat → List (List Nat × Json) → List Char →
    Option (List (List Nat × Json) × List Char)
  | 0, _, _ => none
  | Nat.succ f, acc, s =>
    match s with
    | '"' :: t =>
      match parseString t with
      | some (k, r1) =>
        match skipJws r1 with
        | ':' :: r2 =>
          match parseVal f (skipJws r2) with
          | some (v, r3) =>
            match skipJws r3 with
            | c4 :: r4 =>
              if c4 = ',' then membersLoop f (objInsert acc k v) (skipJws r4)
              else if c4 = cbrace then some (objInsert acc k v, r4)
              else none
            | [] => none
          | none => none
        | _ => none
      | none => none
    | _ => none

/-- Parses the elements of a JSON array after the opening bracket
(input positioned at the first element). -/
def elemsLoop : Nat → List Json → List Char → Option (List Json × List Char)
  | 0, _, _ => none
  | Nat.succ f, acc, s =>
    match parseVal f s with
    | some (v, r1) =>
      match skipJws r1 with
      | ',' :: r2 => elemsLoop f (acc ++ [v]) (skipJws r2)
      | ']' :: r2 => some (acc ++ [v], r2)
      | _ => none
    | none => none

end

/-- Embeds `json.loads`: skip surrounding whitespace, parse one value,
and require only whitespace to remain ("Extra data" otherwise). -/
def loads (s : List Char) : Option Json :=
  match parseVal (s.length + 2) (skipJws s) with
  | some (v, rest) => if skipJws rest = [] then some v else none
  | none => none

/-- Embeds `_clean_response`: strip whitespace, apply the two fence
substitutions, locate the first opening and last closing brace, fail
with the no-JSON diagnostic (carrying the first 200 characters of the
raw text) when either is absent, slice the span between them inclusive,
and strip the slice. -/
def clean_response (raw : List Char) : Except VErr (List Char) :=
  match findCh obrace (cleanedText raw), rfindCh cbrace (cleanedText raw) with
  | some bs, some be => .ok (pstrip (((cleanedText raw).take (be + 1)).drop bs))
  | _, _ => .error (.noJsonFound (raw.take 200))

/-- Embeds `_parse_json`: decode the cleaned string, failing with the
malformed-JSON diagnostic (carrying the first 300 characters of the
cleaned string) when decoding fails. -/
def parse_json (cleaned : List Char) : Except VErr Json :=
  match loads cleaned with
  | some v => .ok v
  | none => .error (.malformedJson (cleaned.take 300))

/-- Observable side effects of the pipeline: console prints and file
system operations. -/
inductive Effect
  /-- The non-fatal console warning printed when the slide count is not
  exactly 4. -/
  | printWarnSlideCount (count : Nat)
  /-- The console success message printed after schema validation,
  carrying the slide count and the slide type values it interpolates. -/
  | printSchemaValidated (count : Nat) (types : List (Option Json))
  /-- The console message printed by `parse_and_save` after writing. -/
  | printSaved
  /-- Directory creation performed by `_write_json` (`os.makedirs`). -/
  | makeDirs
  /-- The JSON file write performed by `_write_json`. -/
  | writeFile (fileName : List Char) (content : Json)

/-- Whether an effect is a console print rather than a file-system
operation. -/
def Effect.isConsole : Effect → Bool
  | .printWarnSlideCount _ => true
  | .printSchemaValidated _ _ => true
  | .printSaved => true
  | .makeDirs => false
  | .writeFile _ _ => false

/-- The Python type name of a decoded value, as `type(x).__name__`
interpolates it into the wrong-type message.  A number lexeme with a
fraction, an exponent or a non-standard constant decodes to a `float`,
otherwise to an `int`. -/
def typeName : Json → List Char
  | .obj _ => ("dict").toList
  | .arr _ => ("list").toList
  | .str _ => ("str").toList
  | .bool _ => ("bool").toList
  | .null => ("NoneType").toList
  | .num lex =>
    if lex.any (fun c => c = '.' || c = 'e' || c = 'E') ||
        lex = ("NaN").toList || lex = ("Infinity").toList || lex = ("-Infinity").toList
    then ("float").toList else ("int").toList

/-- The required top-level fields, in the order the source lists them. -/
def requiredTop : List (List Nat) :=
  [js "team", js "match", js "date", js "result", js "slides"]

/-- The required fields per known slide type (the `required_fields`
table), `none` for a type outside the known set. -/
def requiredFields (t : List Nat) : Option (List (List Nat)) :=
  if t = js "headline" then some [js "type", js "text", js "subtext"]
  else if t = js "stat" then
    some [js "type", js "stat_label", js "stat_value", js "narrative"]
  else if t = js "cta" then some [js "type", js "text", js "subtext"]
  else none

/-- The value a slide's `slide.get("type")` produces: `none` when the
slide has no such key (or is not a mapping). -/
def slideTypeOf (slide : Json) : Option Json :=
  match slide with
  | .obj kvs => lookupKey kvs (js "type")
  | _ => none

/-- Checks one slide of 0-based index `i` exactly as the loop body of
`_validate_schema` does: the type discriminator first (a value that is
not one of the three known type strings fails as an unknown type), then
each required field of the declared type in table order.  A slide that
is not a mapping is a distinct failure (Python's `slide.get` raises
`AttributeError` there). -/
def checkSlide (i : Nat) (slide : Json) : Option VErr :=
  match slide with
  | .obj kvs =>
    match lookupKey kvs (js "type") with
    | some (.str t) =>
      match requiredFields t with
      | some flds =>
        match flds.find? (fun f => !(hasKey kvs f)) with
        | some f => some (.missingSlideField (i + 1) t f (objKeys kvs))
        | none => none
      | none => some (.unknownSlideType (i + 1) (some (.str t)))
    | other => some (.unknownSlideType (i + 1) other)
  | _ => some (.slideNotMapping (i + 1))

/-- Checks the slides in order starting at 0-based index `i`, returning
the first failure. -/
def checkSlides : Nat → List Json → Option VErr
  | _, [] => none
  | i, s :: rest =>
    match checkSlide i s with
    | some e => some e
    | none => checkSlides (i + 1) rest

/-- Embeds `_validate_schema`: the required top-level keys are checked
in order, then the shape of `slides`, then the advisory slide-count
warning, then each slide.  Returns the validation outcome together with
the console prints it performs.  A non-mapping top-level value cannot
reach this function from the pipeline (proven below); Python would fail
there with a type-dependent error, modelled as `notAnObject`. -/
def validate_schema (story : Json) : Except VErr Unit × List Effect :=
  match story with
  | .obj kvs =>
    match requiredTop.find? (fun f => !(hasKey kvs f)) with
    | some f => (.error (.missingField f (objKeys kvs)), [])
    | none =>
      match lookupKey kvs (js "slides") with
      | some (.arr slides) =>
        let warns : List Effect :=
          if slides.length = 4 then [] else [.printWarnSlideCount slides.length]
        match checkSlides 0 slides with
        | some e => (.error e, warns)
        | none =>
          (.ok (), warns ++ [.printSchemaValidated slides.length (slides.map slideTypeOf)])
      | some v => (.error (.wrongType (typeName v)), [])
      | none => (.error (.missingField (js "slides") (objKeys kvs)), [])
  | _ => (.error .notAnObject, [])

/-- The validation stages of `parse_and_save` (cleaning, decoding,
schema validation), which the specification exposes as `validate`,
together with the console prints performed along the way. -/
def validate (raw : List Char) : Except VErr Json × List Effect :=
  match clean_response raw with
  | .error e => (.error e, [])
  | .ok cleaned =>
    match parse_json cleaned with
    | .error e => (.error e, [])
    | .ok story =>
      match validate_schema story with
      | (.ok _, effs) => (.ok story, effs)
      | (.error e, effs) => (.error e, effs)

/-- The output file name `_write_json` builds (the timestamp is passed
in explicitly, as the embedding has no clock). -/
def outFileName (teamKey now : List Char) : List Char :=
  teamKey ++ ("_story_").toList ++ now ++ (".json").toList

/-- Embeds `parse_and_save`: validate, then (only on success) create
the output directory, write the story file, and print the save
message. -/
def parse_and_save (raw teamKey now : List Char) : Except VErr Json × List Effect :=
  match validate raw with
  | (.error e, effs) => (.error e, effs)
  | (.ok story, effs) =>
    (.ok story, effs ++ [.makeDirs, .writeFile (outFileName teamKey now) story, .printSaved])

/-- Shorthand for the character list of a string literal. -/
def slist (s : String) : List Char := s.toList

/-- Twin of `clean_response` built on the fuelled substitutions, used to
evaluate the cleaning stage on concrete inputs. -/
def clean_responseF (raw : List Char) : Except VErr (List Char) :=
  match findCh obrace (sub2F (raw.length + 1) (sub1F (raw.length + 1) (pstrip raw))),
        rfindCh cbrace (sub2F (raw.length + 1) (sub1F (raw.length + 1) (pstrip raw))) with
  | some bs, some be =>
    .ok (pstrip (((sub2F (raw.length + 1) (sub1F (raw.length + 1) (pstrip raw))).take
      (be + 1)).drop bs))
  | _, _ => .error (.noJsonFound (raw.take 200))

theorem clean_responseF_eq (raw : List Char) : clean_response raw = clean_responseF raw := by
  unfold clean_response clean_responseF
  rw [cleanedText_eval]

/-- Twin of `validate` built on the fuelled cleaning, used to evaluate
the pipeline on concrete inputs. -/
def validateF (raw : List Char) : Except VErr Json × List Effect :=
  match clean_responseF raw with
  | .error e => (.error e, [])
  | .ok cleaned =>
    match parse_json cleaned with
    | .error e => (.error e, [])
    | .ok story =>
      match validate_schema story with
      | (.ok _, effs) => (.ok story, effs)
      | (.error e, effs) => (.error e, effs)

theorem validateF_eq (raw : List Char) : validate raw = validateF raw := by
  unfold validate validateF
  rw [clean_responseF_eq]

theorem findCh_eq_none_of_not_mem {ch : Char} : ∀ {s : List Char}, ch ∉ s → findCh ch s = none := by
  intro s
  induction s with
  | nil => intro; rfl
  | cons c t ih =>
    intro h
    rw [findCh, if_neg (by rintro rfl; exact h (List.mem_cons_self _ _)),
      ih (fun hm => h (List.mem_cons_of_mem c hm))]
    rfl

theorem rfindCh_eq_none_of_not_mem {ch : Char} {s : List Char} (h : ch ∉ s) :
    rfindCh ch s = none := by
  unfold rfindCh
  rw [findCh_eq_none_of_not_mem (by simpa using h)]
  rfl

theorem findCh_append_of_not_mem {ch : Char} :
    ∀ {A : List Char}, ch ∉ A → ∀ (m : List Char),
      findCh ch (A ++ m) = (findCh ch m).map (· + A.length) := by
  intro A
  induction A with
  | nil =>
    intro _ m
    simp only [List.nil_append, List.length_nil]
    cases findCh ch m <;> simp
  | cons c t ih =>
    intro h m
    rw [List.cons_append, findCh, if_neg (by rintro rfl; exact h (List.mem_cons_self _ _)),
      ih (fun hm => h (List.mem_cons_of_mem c hm)) m]
    cases findCh ch m <;> simp <;> omega

theorem findCh_cons_self (ch : Char) (t : List Char) : findCh ch (ch :: t) = some 0 := by
  rw [findCh, if_pos rfl]

theorem findCh_mem : ∀ {s : List Char} {i : Nat}, findCh ch s = some i → s.get? i = some ch := by
  intro s
  induction s with
  | nil => intro i h; cases h
  | cons c t ih =>
    intro i h
    rw [findCh] at h
    split at h
    · cases h
      rename_i hc
      simp [hc]
    · cases hf : findCh ch t with
      | none => rw [hf] at h; cases h
      | some j =>
        rw [hf] at h
        cases h
        simpa using ih hf

theorem validate_schema_effects_console (j : Json) :
    ∀ e ∈ (validate_schema j).2, e.isConsole = true := by
  intro e he
  unfold validate_schema at he
  repeat' split at he
  all_goals (try simp_all [Effect.isConsole])
  all_goals (rcases he with rfl | rfl <;> rfl)

/-- The spec claims `validate` is deterministic: two runs on the same
raw text agree, both failing identically or both producing
field-for-field equal stories.  The embedding is a pure function, so
the two runs are one value. -/
theorem validate_deterministic (raw : List Char) :
    (∃ e effs, validate raw = (.error e, effs) ∧ validate raw = (.error e, effs)) ∨
    (∃ s effs, validate raw = (.ok s, effs) ∧ validate raw = (.ok s, effs)) := by
  rcases h : validate raw with ⟨r, effs⟩
  cases r with
  | error e => exact .inl ⟨e, effs, rfl, rfl⟩
  | ok s => exact .inr ⟨s, effs, rfl, rfl⟩

/-- C5: for a decoded object missing at least one of the five required
top-level keys, `validate` fails with the missing-field error naming
the first missing key in the listed order (`team`, `match`, `date`,
`result`, `slides` — `find?` order over `requiredTop`) and the keys
actually present. -/
theorem missing_top_field_error (raw c : List Char) (kvs : List (List Nat × Json))
    (f : List Nat)
    (hclean : clean_response raw = .ok c)
    (hloads : loads c = some (.obj kvs))
    (hmiss : requiredTop.find? (fun k => !(hasKey kvs k)) = some f) :
    validate raw = (.error (.missingField f (objKeys kvs)), []) := by
  simp only [validate, hclean, parse_json, hloads, validate_schema, hmiss]

/-- Witness for C5, at the spec's concrete scenario: the raw text
consisting of a JSON object with only a `team` key fails with the
missing-field error for `match`, listing `team` as the only present
key. -/
theorem missing_top_field_error_witness :
    validate (slist "\x7b\"team\":\"X\"\x7d") =
      (.error (.missingField (js "match") [js "team"]), []) :=
  missing_top_field_error (slist "\x7b\"team\":\"X\"\x7d")
    (slist "\x7b\"team\":\"X\"\x7d") [(js "team", Json.str (js "X"))] (js "match")
    (by rw [clean_responseF_eq]; rfl) rfl rfl

/-- C6: when the cleaned text (after whitespace trimming and fence
stripping) has no opening brace or no closing brace, `validate` fails
with the no-JSON-found error whose diagnostic carries the first 200
characters of the original raw text. -/
theorem no_json_found_error (raw : List Char)
    (h : obrace ∉ cleanedText raw ∨ cbrace ∉ cleanedText raw) :
    validate raw = (.error (.noJsonFound (raw.take 200)), []) := by
  have hgoal : clean_response raw = .error (.noJsonFound (raw.take 200)) := by
    unfold clean_response
    rcases h with h | h
    · rw [findCh_eq_none_of_not_mem h]
    · rw [rfindCh_eq_none_of_not_mem h]
      cases findCh obrace (cleanedText raw) <;> rfl
  simp only [validate, hgoal]

/-- Witness for C6: a raw text with no braces at all fails with the
no-JSON-found error carrying the text itself. -/
theorem no_json_found_error_witness :
    validate (slist "Sorry, I cannot help with that.") =
      (.error (.noJsonFound ((slist "Sorry, I cannot help with that.").take 200)), []) :=
  no_json_found_error (slist "Sorry, I cannot help with that.")
    (by rw [cleanedText_eval]; exact .inl (by decide))

/-- C7: for a decoded object with all five required keys whose `slides`
value is not a list, `validate` fails with the wrong-type error naming
the actual Python type. -/
theorem slides_wrong_type_error (raw c : List Char) (kvs : List (List Nat × Json)) (v : Json)
    (hclean : clean_response raw = .ok c)
    (hloads : loads c = some (.obj kvs))
    (htop : requiredTop.find? (fun k => !(hasKey kvs k)) = none)
    (hslides : lookupKey kvs (js "slides") = some v)
    (hnl : ∀ l, v ≠ .arr l) :
    validate raw = (.error (.wrongType (typeName v)), []) := by
  simp only [validate, hclean, parse_json, hloads, validate_schema, htop, hslides]

/-- A story text whose `slides` value is a mapping instead of a list. -/
def mapSlidesText : List Char :=
  slist "\x7b\"team\":\"A\",\"match\":\"B\",\"date\":\"C\",\"result\":\"WIN\",\"slides\":\x7b\"a\":1\x7d\x7d"

/-- Witness for C7: a story whose `slides` is a mapping fails with the
wrong-type error naming `dict`. -/
theorem slides_wrong_type_error_witness :
    validate mapSlidesText = (.error (.wrongType (slist "dict")), []) :=
  slides_wrong_type_error mapSlidesText mapSlidesText
    [(js "team", .str (js "A")), (js "match", .str (js "B")), (js "date", .str (js "C")),
     (js "result", .str (js "WIN")), (js "slides", .obj [(js "a", .num ['1'])])]
    (.obj [(js "a", .num ['1'])])
    (by rw [clean_responseF_eq]; rfl) rfl rfl rfl (fun _ h => Json.noConfusion h)

/-- C8: the slide-count check is advisory.  For a decoded story with
the five keys, a slides list of any length other than 4 whose slides
all pass their checks, `validate` emits the non-fatal count warning,
succeeds, and returns the decoded object unchanged — so the story's
`slides` is exactly the decoded list, of the input length. -/
theorem slide_count_advisory (raw c : List Char) (kvs : List (List Nat × Json)) (l : List Json)
    (hclean : clean_response raw = .ok c)
    (hloads : loads c = some (.obj kvs))
    (htop : requiredTop.find? (fun k => !(hasKey kvs k)) = none)
    (hslides : lookupKey kvs (js "slides") = some (.arr l))
    (hok : checkSlides 0 l = none)
    (hne : l.length ≠ 4) :
    validate raw = (.ok (.obj kvs),
      [.printWarnSlideCount l.length, .printSchemaValidated l.length (l.map slideTypeOf)]) ∧
    lookupKey kvs (js "slides") = some (.arr l) := by
  refine ⟨?_, hslides⟩
  simp only [validate, hclean, parse_json, hloads, validate_schema, htop, hslides, hok,
    if_neg hne]
  rfl

/-- A valid story text with three slides. -/
def story3Text : List Char :=
  slist "\x7b\"team\":\"Lakers\",\"match\":\"Lakers vs Celtics\",\"date\":\"2025-01-01\",\"result\":\"WIN\",\"slides\":[\x7b\"type\":\"headline\",\"text\":\"T1\",\"subtext\":\"S1\"\x7d,\x7b\"type\":\"stat\",\"stat_label\":\"PTS\",\"stat_value\":\"120\",\"narrative\":\"N\"\x7d,\x7b\"type\":\"cta\",\"text\":\"T3\",\"subtext\":\"S3\"\x7d]\x7d"

/-- The three decoded slides of `story3Text`. -/
def story3Slides : List Json :=
  [.obj [(js "type", .str (js "headline")), (js "text", .str (js "T1")),
     (js "subtext", .str (js "S1"))],
   .obj [(js "type", .str (js "stat")), (js "stat_label", .str (js "PTS")),
     (js "stat_value", .str (js "120")), (js "narrative", .str (js "N"))],
   .obj [(js "type", .str (js "cta")), (js "text", .str (js "T3")),
     (js "subtext", .str (js "S3"))]]

/-- The decoded entries of `story3Text`. -/
def story3Kvs : List (List Nat × Json) :=
  [(js "team", .str (js "Lakers")), (js "match", .str (js "Lakers vs Celtics")),
   (js "date", .str (js "2025-01-01")), (js "result", .str (js "WIN")),
   (js "slides", .arr story3Slides)]

/-- Witness for C8: a three-slide story succeeds with the count warning
and its slides list is returned with length 3. -/
theorem slide_count_advisory_witness :
    validate story3Text = (.ok (.obj story3Kvs),
      [.printWarnSlideCount story3Slides.length,
       .printSchemaValidated story3Slides.length (story3Slides.map slideTypeOf)]) ∧
    lookupKey story3Kvs (js "slides") = some (.arr story3Slides) :=
  slide_count_advisory story3Text story3Text story3Kvs story3Slides
    (by rw [clean_responseF_eq]; rfl) rfl rfl rfl rfl (by decide)

/-- C3 (amended): schema validation constrains only the presence of the
five top-level keys, never their values.  Whenever the keys are present
and the slides pass, validation succeeds — regardless of what `team`,
`match`, `date` and `result` hold. -/
theorem top_fields_presence_only (raw c : List Char) (kvs : List (List Nat × Json))
    (l : List Json)
    (hclean : clean_response raw = .ok c)
    (hloads : loads c = some (.obj kvs))
    (htop : requiredTop.find? (fun k => !(hasKey kvs k)) = none)
    (hslides : lookupKey kvs (js "slides") = some (.arr l))
    (hok : checkSlides 0 l = none) :
    (validate raw).1 = .ok (.obj kvs) := by
  simp only [validate, hclean, parse_json, hloads, validate_schema, htop, hslides, hok]

/-- A story text with an empty `team` and a `result` outside the
WIN/LOSS/DRAW enumeration, otherwise well-formed with four slides. -/
def storyBadText : List Char :=
  slist "\x7b\"team\":\"\",\"match\":\"M\",\"date\":\"D\",\"result\":\"TIE\",\"slides\":[\x7b\"type\":\"headline\",\"text\":\"T1\",\"subtext\":\"S1\"\x7d,\x7b\"type\":\"stat\",\"stat_label\":\"L\",\"stat_value\":\"V\",\"narrative\":\"N\"\x7d,\x7b\"type\":\"stat\",\"stat_label\":\"L2\",\"stat_value\":\"V2\",\"narrative\":\"N2\"\x7d,\x7b\"type\":\"cta\",\"text\":\"T4\",\"subtext\":\"S4\"\x7d]\x7d"

/-- The decoded slides of `storyBadText`. -/
def storyBadSlides : List Json :=
  [.obj [(js "type", .str (js "headline")), (js "text", .str (js "T1")),
     (js "subtext", .str (js "S1"))],
   .obj [(js "type", .str (js "stat")), (js "stat_label", .str (js "L")),
     (js "stat_value", .str (js "V")), (js "narrative", .str (js "N"))],
   .obj [(js "type", .str (js "stat")), (js "stat_label", .str (js "L2")),
     (js "stat_value", .str (js "V2")), (js "narrative", .str (js "N2"))],
   .obj [(js "type", .str (js "cta")), (js "text", .str (js "T4")),
     (js "subtext", .str (js "S4"))]]

/-- The decoded entries of `storyBadText`. -/
def storyBadKvs : List (List Nat × Json) :=
  [(js "team", .str []), (js "match", .str (js "M")), (js "date", .str (js "D")),
   (js "result", .str (js "TIE")), (js "slides", .arr storyBadSlides)]

/-- Counterexample for C3 as stated: a story whose `team` is the empty
string and whose `result` is `TIE` — outside WIN/LOSS/DRAW — validates
successfully, so a successful validation does not guarantee non-empty
enumerated values. -/
theorem top_fields_value_counterexample :
    (validate storyBadText).1 = .ok (.obj storyBadKvs) ∧
    lookupKey storyBadKvs (js "result") = some (.str (js "TIE")) ∧
    lookupKey storyBadKvs (js "team") = some (.str []) ∧
    js "TIE" ≠ js "WIN" ∧ js "TIE" ≠ js "LOSS" ∧ js "TIE" ≠ js "DRAW" := by
  refine ⟨?_, rfl, rfl, by decide, by decide, by decide⟩
  rw [validateF_eq]
  rfl

/-- Witness for C3's amended statement at the same story: presence of
the five keys with passing slides suffices for success. -/
theorem top_fields_presence_only_witness :
    (validate storyBadText).1 = .ok (.obj storyBadKvs) :=
  top_fields_presence_only storyBadText storyBadText storyBadKvs storyBadSlides
    (by rw [clean_responseF_eq]; rfl) rfl rfl rfl rfl

/-- A valid story text with exactly four slides. -/
def story4Text : List Char :=
  slist "\x7b\"team\":\"ManUtd\",\"match\":\"ManUtd vs Arsenal\",\"date\":\"2025-02-02\",\"result\":\"DRAW\",\"slides\":[\x7b\"type\":\"headline\",\"text\":\"H\",\"subtext\":\"HS\"\x7d,\x7b\"type\":\"stat\",\"stat_label\":\"G\",\"stat_value\":\"1\",\"narrative\":\"GN\"\x7d,\x7b\"type\":\"stat\",\"stat_label\":\"P\",\"stat_value\":\"55\",\"narrative\":\"PN\"\x7d,\x7b\"type\":\"cta\",\"text\":\"F\",\"subtext\":\"FS\"\x7d]\x7d"

/-- The decoded slides of `story4Text`. -/
def story4Slides : List Json :=
  [.obj [(js "type", .str (js "headline")), (js "text", .str (js "H")),
     (js "subtext", .str (js "HS"))],
   .obj [(js "type", .str (js "stat")), (js "stat_label", .str (js "G")),
     (js "stat_value", .str (js "1")), (js "narrative", .str (js "GN"))],
   .obj [(js "type", .str (js "stat")), (js "stat_label", .str (js "P")),
     (js "stat_value", .str (js "55")), (js "narrative", .str (js "PN"))],
   .obj [(js "type", .str (js "cta")), (js "text", .str (js "F")),
     (js "subtext", .str (js "FS"))]]

/-- The decoded entries of `story4Text`. -/
def story4Kvs : List (List Nat × Json) :=
  [(js "team", .str (js "ManUtd")), (js "match", .str (js "ManUtd vs Arsenal")),
   (js "date", .str (js "2025-02-02")), (js "result", .str (js "DRAW")),
   (js "slides", .arr story4Slides)]

/-- C4 (amended): the validation stages perform no file-system effects
on any input — every effect in their trace is a console print — and the
file write of `parse_and_save` happens only after a successful
validation, appended after the validation trace. -/
theorem validate_fs_free :
    (∀ raw : List Char, ∀ e ∈ (validate raw).2, e.isConsole = true) ∧
    (∀ (raw team now : List Char) (story : Json) (effs : List Effect),
      validate raw = (.ok story, effs) →
      parse_and_save raw team now =
        (.ok story, effs ++ [.makeDirs, .writeFile (outFileName team now) story,
          .printSaved])) := by
  constructor
  · intro raw e he
    unfold validate at he
    split at he
    · simp at he
    · split at he
      · simp at he
      · rename_i story hstory
        split at he
        · rename_i u effs heq
          exact validate_schema_effects_console story e (by rw [heq]; exact he)
        · rename_i e2 effs heq
          exact validate_schema_effects_console story e (by rw [heq]; exact he)
  · intro raw team now story effs hv
    unfold parse_and_save
    rw [hv]

/-- Counterexample for C4 as stated: validating a fully valid four-slide
story succeeds and its effect trace is a (non-empty) console print — the
schema-validated success message — so returning a value is not the only
observable effect of `validate`. -/
theorem validate_console_counterexample :
    (validate story4Text).1 = .ok (.obj story4Kvs) ∧
    (validate story4Text).2 =
      [.printSchemaValidated 4 [some (.str (js "headline")), some (.str (js "stat")),
        some (.str (js "stat")), some (.str (js "cta"))]] ∧
    (validate story4Text).2 ≠ [] := by
  have h2 : (validate story4Text).2 =
      [Effect.printSchemaValidated 4 [some (.str (js "headline")), some (.str (js "stat")),
        some (.str (js "stat")), some (.str (js "cta"))]] := by
    rw [validateF_eq]
    rfl
  refine ⟨?_, h2, ?_⟩
  · rw [validateF_eq]
    rfl
  · rw [h2]
    exact List.cons_ne_nil _ _

/-- Witness for C4's amended statement: on the four-slide story,
`parse_and_save` appends the directory creation, the file write and the
save message after the validation trace. -/
theorem validate_fs_free_witness :
    parse_and_save story4Text (slist "manutd") (slist "20260213_143022") =
      (.ok (.obj story4Kvs),
        [Effect.printSchemaValidated 4 [some (.str (js "headline")), some (.str (js "stat")),
          some (.str (js "stat")), some (.str (js "cta"))]] ++
        [.makeDirs,
         .writeFile (outFileName (slist "manutd") (slist "20260213_143022")) (.obj story4Kvs),
         .printSaved]) :=
  validate_fs_free.2 story4Text (slist "manutd") (slist "20260213_143022") (.obj story4Kvs)
    [Effect.printSchemaValidated 4 [some (.str (js "headline")), some (.str (js "stat")),
      some (.str (js "stat")), some (.str (js "cta"))]]
    (by rw [validateF_eq]; rfl)

theorem checkSlides_from (l : List Json) : ∀ (k i : Nat) (s : Json) (e : VErr),
    l[i]? = some s →
    (∀ j sj, j < i → l[j]? = some sj → checkSlide (k + j) sj = none) →
    checkSlide (k + i) s = some e →
    checkSlides k l = some e := by
  induction l with
  | nil => intro k i s e h; simp at h
  | cons hd tl ih =>
    intro k i s e hget hprev hfail
    cases i with
    | zero =>
      have hs : hd = s := by simpa using hget
      subst hs
      unfold checkSlides
      simp only [Nat.add_zero] at hfail
      rw [hfail]
    | succ j =>
      have h0 : checkSlide k hd = none := by
        simpa using hprev 0 hd (Nat.succ_pos _) (by simp)
      unfold checkSlides
      rw [h0]
      refine ih (k + 1) j s e (by simpa using hget) ?_ ?_
      · intro j2 sj hj hg
        have := hprev (j2 + 1) sj (by omega) (by simpa using hg)
        rw [show k + 1 + j2 = k + (j2 + 1) by omega]
        exact this
      · rw [show k + 1 + j = k + (j + 1) by omega]
        exact hfail

/-- C2 (amended): the per-slide type check and required-field check are
interleaved, slide by slide in order: the first slide failing its own
check (type first, then fields, inside `checkSlide`) determines the
error.  A slide is only examined after every earlier slide has passed
both of its checks. -/
theorem slide_checks_interleaved (l : List Json) (i : Nat) (s : Json) (e : VErr)
    (hget : l[i]? = some s)
    (hprev : ∀ j sj, j < i → l[j]? = some sj → checkSlide j sj = none)
    (hfail : checkSlide i s = some e) :
    checkSlides 0 l = some e := by
  refine checkSlides_from l 0 i s e hget ?_ (by simpa using hfail)
  intro j sj hj hg
  simpa using hprev j sj hj hg

/-- A headline slide with both of its required fields. -/
def okHeadSlide : Json :=
  .obj [(js "type", .str (js "headline")), (js "text", .str (js "X")),
    (js "subtext", .str (js "S"))]

/-- A slide with the unknown type tag `outro`. -/
def outroSlide : Json :=
  .obj [(js "type", .str (js "outro")), (js "text", .str (js "Y")),
    (js "subtext", .str (js "Z"))]

/-- Witness for C2's amended statement: with a passing first slide, an
unknown type on the second slide surfaces as that slide's error at
position 2. -/
theorem slide_checks_interleaved_witness :
    checkSlides 0 [okHeadSlide, outroSlide] =
      some (.unknownSlideType 2 (some (.str (js "outro")))) :=
  slide_checks_interleaved [okHeadSlide, outroSlide] 1 outroSlide
    (.unknownSlideType 2 (some (.str (js "outro")))) rfl
    (by
      intro j sj hj hg
      have hj0 : j = 0 := by omega
      subst hj0
      have hsj : okHeadSlide = sj := by simpa using hg
      subst hsj
      rfl)
    rfl

/-- A story text whose first slide is a known-type slide missing a
required field and whose second slide has the unknown type `outro`. -/
def interleavedText : List Char :=
  slist "\x7b\"team\":\"A\",\"match\":\"B\",\"date\":\"C\",\"result\":\"WIN\",\"slides\":[\x7b\"type\":\"headline\",\"text\":\"X\"\x7d,\x7b\"type\":\"outro\",\"text\":\"Y\",\"subtext\":\"Z\"\x7d]\x7d"

/-- Counterexample for C2 as stated: on the two-slide scenario the code
fails with the missing-slide-field error for slide 1, not with the
unknown-slide-type error for slide 2 — the checks are not two separate
passes. -/
theorem slide_checks_order_counterexample :
    (validate interleavedText).1 =
      .error (.missingSlideField 1 (js "headline") (js "subtext") [js "type", js "text"]) ∧
    (validate interleavedText).1 ≠
      .error (.unknownSlideType 2 (some (.str (js "outro")))) := by
  have h : (validate interleavedText).1 =
      .error (.missingSlideField 1 (js "headline") (js "subtext") [js "type", js "text"]) := by
    rw [validateF_eq]
    rfl
  refine ⟨h, ?_⟩
  rw [h]
  simp

theorem findCh_lt_length {ch : Char} :
    ∀ {s : List Char} {i : Nat}, findCh ch s = some i → i < s.length := by
  intro s
  induction s with
  | nil => intro i h; cases h
  | cons c t ih =>
    intro i h
    rw [findCh] at h
    split at h
    · cases h; simp
    · cases hf : findCh ch t with
      | none => rw [hf] at h; cases h
      | some j =>
        rw [hf] at h
        cases h
        have := ih hf
        simp only [List.length_cons]
        omega

theorem findCh_getElem {ch : Char} :
    ∀ {s : List Char} {i : Nat}, findCh ch s = some i → s[i]? = some ch := by
  intro s
  induction s with
  | nil => intro i h; cases h
  | cons c t ih =>
    intro i h
    rw [findCh] at h
    split at h
    · cases h
      rename_i hc
      simp [hc]
    · cases hf : findCh ch t with
      | none => rw [hf] at h; cases h
      | some j =>
        rw [hf] at h
        cases h
        simpa using ih hf

theorem rfindCh_spec {ch : Char} {s : List Char} {j : Nat} (h : rfindCh ch s = some j) :
    j < s.length ∧ s[j]? = some ch := by
  unfold rfindCh at h
  cases hf : findCh ch s.reverse with
  | none => rw [hf] at h; cases h
  | some jr =>
    rw [hf] at h
    cases h
    have hlt : jr < s.length := by simpa using findCh_lt_length hf
    have hget := findCh_getElem hf
    rw [List.getElem?_reverse (by simpa using hlt)] at hget
    constructor
    · show s.length - 1 - jr < s.length
      omega
    · exact hget

theorem pstrip_of_braces {m : List Char} (hh : m.head? = some obrace)
    (hl : m.getLast? = some cbrace) : pstrip m = m := by
  cases m with
  | nil => cases hh
  | cons c t =>
    have hc : c = obrace := by simpa using hh
    subst hc
    have hls : lstrip (obrace :: t) = obrace :: t := by
      unfold lstrip
      rw [List.dropWhile_cons, if_neg (by decide)]
    have hrs : rstrip (obrace :: t) = obrace :: t := by
      unfold rstrip
      cases hrev : (obrace :: t).reverse with
      | nil => simp at hrev
      | cons y ys =>
        have hy : y = cbrace := by
          have hhr := List.head?_reverse (obrace :: t)
          rw [hrev, hl] at hhr
          simpa using hhr
        subst hy
        rw [List.dropWhile_cons, if_neg (by decide), ← hrev, List.reverse_reverse]
    unfold pstrip
    rw [hls, hrs]

theorem checkSlide_ne_notAnObject (i : Nat) (s : Json) :
    checkSlide i s ≠ some .notAnObject := by
  unfold checkSlide
  intro h
  repeat' split at h
  all_goals simp_all

theorem checkSlides_ne_notAnObject : ∀ (l : List Json) (k : Nat),
    checkSlides k l ≠ some .notAnObject := by
  intro l
  induction l with
  | nil => intro k h; cases h
  | cons hd tl ih =>
    intro k h
    unfold checkSlides at h
    split at h
    · rename_i e he
      cases h
      exact checkSlide_ne_notAnObject k hd he
    · exact ih (k + 1) h

theorem validate_schema_obj_no_notAnObject (kvs : List (List Nat × Json)) :
    (validate_schema (.obj kvs)).1 ≠ .error .notAnObject := by
  unfold validate_schema
  intro h
  repeat' split at h
  all_goals (try simp_all)
  all_goals (rename_i heq; exact checkSlides_ne_notAnObject _ _ heq)

/-- C10: when the last closing brace precedes the first opening brace,
the slice is empty, decoding fails, and `validate` reports malformed
JSON (not no-JSON-found); a non-empty extracted slice always begins
with an opening brace and ends with a closing brace; a decoded value of
a text beginning with an opening brace is always an object; and
consequently an is-the-decoded-value-an-object check can never be the
failing check of `validate`. -/
theorem brace_extraction_shape :
    (∀ (raw : List Char) (bs be : Nat),
      findCh obrace (cleanedText raw) = some bs →
      rfindCh cbrace (cleanedText raw) = some be →
      be < bs →
      validate raw = (.error (.malformedJson []), [])) ∧
    (∀ (raw c : List Char), clean_response raw = .ok c →
      c = [] ∨ (c.head? = some obrace ∧ c.getLast? = some cbrace)) ∧
    (∀ (s : List Char) (v : Json), s.head? = some obrace → loads s = some v →
      ∃ kvs, v = .obj kvs) ∧
    (∀ raw : List Char, (validate raw).1 ≠ .error .notAnObject) := by
  have hshape : ∀ (raw c : List Char), clean_response raw = .ok c →
      c = [] ∨ (c.head? = some obrace ∧ c.getLast? = some cbrace) := by
    intro raw c h
    unfold clean_response at h
    split at h
    · rename_i bs be hbs hbe
      have hc : c = pstrip (((cleanedText raw).take (be + 1)).drop bs) := by
        injection h with h2
        exact h2.symm
      by_cases hlt : be < bs
      · left
        have hnil : ((cleanedText raw).take (be + 1)).drop bs = [] := by
          apply List.drop_eq_nil_of_le
          have := List.length_take (be + 1) (cleanedText raw)
          omega
        rw [hc, hnil]
        rfl
      · right
        have hbslt := findCh_lt_length hbs
        have hbsel := findCh_getElem hbs
        obtain ⟨hbelt, hbeel⟩ := rfindCh_spec hbe
        have hble : bs ≤ be := Nat.le_of_not_lt hlt
        have hlen : (((cleanedText raw).take (be + 1)).drop bs).length = be + 1 - bs := by
          simp only [List.length_drop, List.length_take]
          omega
        have hhead : (((cleanedText raw).take (be + 1)).drop bs).head? = some obrace := by
          rw [List.head?_drop, List.getElem?_take_of_lt (by omega), hbsel]
        have hlast : (((cleanedText raw).take (be + 1)).drop bs).getLast? = some cbrace := by
          rw [List.getLast?_eq_getElem?, hlen, List.getElem?_drop,
            List.getElem?_take_of_lt (by omega),
            show bs + (be + 1 - bs - 1) = be by omega, hbeel]
        rw [hc, pstrip_of_braces hhead hlast]
        exact ⟨hhead, hlast⟩
    · cases h
  have hobj : ∀ (s : List Char) (v : Json), s.head? = some obrace → loads s = some v →
      ∃ kvs, v = .obj kvs := by
    intro s v hh hl
    cases s with
    | nil => cases hh
    | cons c t =>
      have hc : c = obrace := by simpa using hh
      subst hc
      unfold loads at hl
      have hskip : skipJws (obrace :: t) = obrace :: t := by
        unfold skipJws
        rw [List.dropWhile_cons, if_neg (by decide)]
      rw [hskip] at hl
      cases hp : parseVal ((obrace :: t).length + 2) (obrace :: t) with
      | none => rw [hp] at hl; cases hl
      | some pr =>
        obtain ⟨pv, prest⟩ := pr
        rw [hp] at hl
        dsimp only at hl
        have hv : v = pv := by
          split at hl
          · injection hl with h2; exact h2.symm
          · cases hl
        subst hv
        rw [show (obrace :: t).length + 2 = Nat.succ ((obrace :: t).length + 1) from rfl,
          parseVal] at hp
        rw [if_pos rfl] at hp
        cases hsk2 : skipJws t with
        | nil => rw [hsk2] at hp; cases hp
        | cons c2 t2 =>
          rw [hsk2] at hp
          dsimp only at hp
          by_cases hcb : c2 = cbrace
          · rw [if_pos hcb] at hp
            injection hp with h2
            exact ⟨[], congrArg Prod.fst h2.symm⟩
          · rw [if_neg hcb] at hp
            cases hm : membersLoop ((obrace :: t).length + 1) [] (c2 :: t2) with
            | none => rw [hm] at hp; cases hp
            | some p =>
              rw [hm] at hp
              injection hp with h2
              exact ⟨p.1, congrArg Prod.fst h2.symm⟩
  refine ⟨?_, hshape, hobj, ?_⟩
  · intro raw bs be hbs hbe hlt
    have hclean : clean_response raw = .ok [] := by
      unfold clean_response
      rw [hbs, hbe]
      have hnil : ((cleanedText raw).take (be + 1)).drop bs = [] := by
        apply List.drop_eq_nil_of_le
        have := List.length_take (be + 1) (cleanedText raw)
        omega
      show Except.ok (pstrip (((cleanedText raw).take (be + 1)).drop bs)) = Except.ok []
      rw [hnil]
      rfl
    simp only [validate, hclean, parse_json]
    rfl
  · intro raw h
    unfold validate at h
    split at h
    · rename_i e heq
      unfold clean_response at heq
      split at heq
      · cases heq
      · injection heq with h2
        rw [← h2] at h
        cases h
    · rename_i cleaned hclean
      split at h
      · rename_i e heq
        unfold parse_json at heq
        split at heq
        · cases heq
        · injection heq with h2
          rw [← h2] at h
          cases h
      · rename_i story hstory
        have hloads : loads cleaned = some story := by
          unfold parse_json at hstory
          split at hstory
          · rename_i v hv
            injection hstory with h2
            rw [← h2]
            exact hv
          · cases hstory
        rcases hshape raw cleaned hclean with hnil | ⟨hh, _⟩
        · subst hnil
          rw [show loads [] = none from rfl] at hloads
          cases hloads
        · obtain ⟨kvs, hkvs⟩ := hobj cleaned story hh hloads
          subst hkvs
          split at h
          · rename_i u effs heq
            cases h
          · rename_i e2 effs heq
            have := validate_schema_obj_no_notAnObject kvs
            rw [heq] at this
            injection h with h2
            rw [h2] at this
            exact this rfl

/-- Witness for C10 at the concrete text where the closing brace
precedes the opening brace: decoding of the empty slice fails as
malformed JSON rather than no-JSON-found. -/
theorem brace_extraction_shape_witness :
    validate (slist "\x7d x \x7b") = (.error (.malformedJson []), []) :=
  brace_extraction_shape.1 (slist "\x7d x \x7b") 4 0
    (by rw [cleanedText_eval]; rfl) (by rw [cleanedText_eval]; rfl) (by omega)

/-- Whether three consecutive backticks occur anywhere in the text. -/
def hasTriple : List Char → Bool
  | c1 :: c2 :: c3 :: t =>
    (c1 = btick && c2 = btick && c3 = btick) || hasTriple (c2 :: c3 :: t)
  | _ => false

/-- Length of the leading run of backticks. -/
def btRun : List Char → Nat
  | c :: t => if c = btick then btRun t + 1 else 0
  | [] => 0

theorem btRun_two {t : List Char} : 2 ≤ btRun t ↔ t.take 2 = [btick, btick] := by
  match t with
  | [] => simp [btRun]
  | [x] =>
    simp only [btRun, List.take, List.cons.injEq]
    split <;> simp
  | x :: y :: r =>
    simp only [btRun, List.take, List.cons.injEq]
    by_cases hx : x = btick <;> by_cases hy : y = btick <;>
      simp [hx, hy] <;> omega

theorem hasTriple_cons_false {c : Char} {X : List Char} :
    hasTriple (c :: X) = false ↔ ¬(c = btick ∧ 2 ≤ btRun X) ∧ hasTriple X = false := by
  match X with
  | [] => simp [hasTriple, btRun]
  | [x] =>
    simp only [hasTriple, btRun]
    split <;> simp_all
  | x :: y :: r =>
    have e1 : hasTriple (c :: x :: y :: r) =
        ((c = btick && x = btick && y = btick) || hasTriple (x :: y :: r)) := rfl
    have e2 : (2 ≤ btRun (x :: y :: r)) ↔ (x = btick ∧ y = btick) := by
      rw [btRun_two]
      simp [List.take]
    rw [e1, Bool.or_eq_false_iff, e2]
    constructor
    · rintro ⟨h1, h2⟩
      refine ⟨?_, h2⟩
      rintro ⟨hc, hx, hy⟩
      rw [hc, hx, hy] at h1
      simp at h1
    · rintro ⟨h1, h2⟩
      refine ⟨?_, h2⟩
      by_cases hc : c = btick
      · by_cases hx : x = btick
        · by_cases hy : y = btick
          · exact absurd ⟨hc, hx, hy⟩ h1
          · simp [hy]
        · simp [hx]
      · simp [hc]

theorem sub1_no_triple : ∀ s : List Char,
    hasTriple (sub1 s) = false ∧ btRun (sub1 s) ≤ 2 ∧ btRun (sub1 s) ≤ btRun s := by
  intro s
  induction s using sub1.induct with
  | case1 => rw [sub1]; exact ⟨rfl, by simp [btRun], by simp [btRun]⟩
  | case2 c t hc ih =>
    rw [sub1, if_pos hc]
    refine ⟨ih.1, ih.2.1, ?_⟩
    have h3 : 3 ≤ btRun (c :: t) := by
      obtain ⟨rfl, h2⟩ := hc
      have h4 := btRun_two.mpr h2
      have h5 : btRun (btick :: t) = btRun t + 1 := by simp [btRun]
      omega
    omega
  | case3 c t hc ih =>
    rw [sub1, if_neg hc]
    have hrun : btRun (sub1 t) ≤ btRun t := ih.2.2
    have hble : c = btick → btRun t ≤ 1 := by
      intro hcb
      by_contra hgt
      exact hc ⟨hcb, btRun_two.mp (by omega)⟩
    refine ⟨?_, ?_, ?_⟩
    · rw [hasTriple_cons_false]
      refine ⟨?_, ih.1⟩
      rintro ⟨rfl, h2⟩
      have := hble rfl
      omega
    · simp only [btRun]
      split
      · rename_i hcb
        have := hble hcb
        omega
      · omega
    · simp only [btRun]
      split <;> omega

theorem sub2_eq_self_of_no_triple : ∀ s : List Char, hasTriple s = false → sub2 s = s := by
  intro s
  induction s with
  | nil => intro _; rw [sub2]
  | cons c t ih =>
    intro h
    obtain ⟨h1, h2⟩ := hasTriple_cons_false.mp h
    rw [sub2, dif_neg, ih h2]
    rintro ⟨hcb, htk, -⟩
    exact h1 ⟨hcb, btRun_two.mpr htk⟩

/-- After the first substitution no fence remains, so the second
substitution is the identity on the pipeline's cleaned text. -/
theorem cleanedText_eq_sub1 (raw : List Char) : cleanedText raw = sub1 (pstrip raw) :=
  sub2_eq_self_of_no_triple _ (sub1_no_triple _).1

theorem dropWhile_append_stop {p : Char → Bool} {m : List Char} (c0 : Char)
    (hm : m.head? = some c0) (hc0 : p c0 = false) :
    ∀ A : List Char, (A ++ m).dropWhile p = A.dropWhile p ++ m := by
  intro A
  induction A with
  | nil =>
    cases m with
    | nil => cases hm
    | cons x t =>
      have hx : x = c0 := by simpa using hm
      subst hx
      simp [List.dropWhile_cons, hc0]
  | cons a A2 ih =>
    rw [List.cons_append, List.dropWhile_cons, List.dropWhile_cons]
    by_cases hp : p a
    · rw [if_pos hp, if_pos hp, ih]
    · rw [if_neg hp, if_neg hp, List.cons_append]

theorem sub1_append_passthrough : ∀ (m rest : List Char), hasTriple m = false →
    m.getLast? ≠ some btick → sub1 (m ++ rest) = m ++ sub1 rest := by
  intro m
  induction m with
  | nil => intro rest _ _; simp
  | cons c m2 ih =>
    intro rest hnt hlast
    obtain ⟨h1, h2⟩ := hasTriple_cons_false.mp hnt
    rw [List.cons_append, sub1, if_neg ?hcond, ih rest h2 ?hlast2, List.cons_append]
    case hcond =>
      rintro ⟨hcb, htake⟩
      cases m2 with
      | nil =>
        refine hlast ?_
        rw [hcb]
        rfl
      | cons x m3 =>
        cases m3 with
        | nil =>
          have hx : x = btick := by
            cases rest with
            | nil => simp [List.take] at htake
            | cons y t2 =>
              simp only [List.cons_append, List.nil_append, List.take,
                List.cons.injEq] at htake
              exact htake.1
          refine hlast ?_
          rw [show (c :: [x]).getLast? = some x from rfl, hx]
        | cons y m4 =>
          have hxy : x = btick ∧ y = btick := by
            simp only [List.cons_append, List.take, List.cons.injEq] at htake
            exact ⟨htake.1, htake.2.1⟩
          refine h1 ⟨hcb, ?_⟩
          rw [btRun_two]
          simp [List.take, hxy.1, hxy.2]
    case hlast2 =>
      cases m2 with
      | nil => intro h; cases h
      | cons x m3 =>
        intro h
        refine hlast ?_
        rw [List.getLast?_cons_cons]
        exact h

theorem jsonTag_no_obrace : ∀ k, k < 4 → jsonTag[k]? ≠ some obrace := by decide

theorem sub1_decompose (core : List Char) (hh : core.head? = some obrace)
    (hl : core.getLast? = some cbrace) (hnt : hasTriple core = false) :
    ∀ (n : Nat) (pre post : List Char), pre.length ≤ n →
      ∃ A : List Char, A.Sublist pre ∧
        sub1 (pre ++ core ++ post) = A ++ core ++ sub1 post := by
  have hbase : ∀ post, sub1 (core ++ post) = core ++ sub1 post := by
    intro post
    refine sub1_append_passthrough core post hnt ?_
    rw [hl]
    intro h
    injection h with h2
    exact absurd h2 (by decide)
  cases core with
  | nil => cases hh
  | cons a core2 =>
  have ha : a = obrace := by simpa using hh
  subst ha
  intro n
  induction n with
  | zero =>
    intro pre post hlen
    have hpre : pre = [] := List.length_eq_zero.mp (Nat.le_zero.mp hlen)
    subst hpre
    refine ⟨[], List.nil_sublist _, ?_⟩
    simpa using hbase post
  | succ n ih =>
    intro pre post hlen
    cases pre with
    | nil =>
      refine ⟨[], List.nil_sublist _, ?_⟩
      simpa using hbase post
    | cons c pre2 =>
      have hstep : ((c :: pre2) ++ (obrace :: core2)) ++ post =
          c :: ((pre2 ++ (obrace :: core2)) ++ post) := by simp
      by_cases hcond : c = btick ∧ ((pre2 ++ (obrace :: core2)) ++ post).take 2 =
          [btick, btick]
      · have hplen : 2 ≤ pre2.length := by
          rcases hcond with ⟨-, htake⟩
          by_contra hlt
          push_neg at hlt
          cases pre2 with
          | nil =>
            simp only [List.nil_append, List.cons_append, List.take,
              List.cons.injEq] at htake
            exact absurd htake.1 (by decide)
          | cons x pre3 =>
            cases pre3 with
            | nil =>
              simp only [List.cons_append, List.nil_append, List.take,
                List.cons.injEq] at htake
              exact absurd htake.2.1 (by decide)
            | cons y pre4 => simp at hlt; omega
        have hdrop : ((pre2 ++ (obrace :: core2)) ++ post).drop 2 =
            ((pre2.drop 2) ++ (obrace :: core2)) ++ post := by
          rw [List.append_assoc, List.drop_append_of_le_length hplen,
            List.append_assoc]
        -- analyse the optional "json" tag
        have hjson : ∃ A3 : List Char, A3.Sublist pre2 ∧
            dropJson (((pre2.drop 2) ++ (obrace :: core2)) ++ post) =
              (A3 ++ (obrace :: core2)) ++ post := by
          by_cases hjt : (((pre2.drop 2) ++ (obrace :: core2)) ++ post).take 4 = jsonTag
          · have h4 : 4 ≤ (pre2.drop 2).length := by
              by_contra h4n
              push_neg at h4n
              have he1 : (((pre2.drop 2) ++ (obrace :: core2)) ++ post)[(pre2.drop 2).length]? =
                  some obrace := by
                rw [List.append_assoc,
                  List.getElem?_append_right (le_refl (pre2.drop 2).length)]
                simp
              have he2 : (((pre2.drop 2) ++ (obrace :: core2)) ++ post)[(pre2.drop 2).length]? =
                  jsonTag[(pre2.drop 2).length]? := by
                rw [← hjt, List.getElem?_take_of_lt h4n]
              rw [he1] at he2
              exact jsonTag_no_obrace _ h4n he2.symm
            refine ⟨(pre2.drop 2).drop 4, ((List.drop_sublist _ _).trans
              (List.drop_sublist _ _)), ?_⟩
            unfold dropJson
            rw [if_pos hjt, List.append_assoc, List.drop_append_of_le_length h4,
              List.append_assoc]
          · refine ⟨pre2.drop 2, List.drop_sublist _ _, ?_⟩
            unfold dropJson
            rw [if_neg hjt]
        obtain ⟨A3, hA3, hdj⟩ := hjson
        have hat : afterTick (((pre2 ++ (obrace :: core2)) ++ post).drop 2) =
            ((A3.dropWhile isPySpace) ++ (obrace :: core2)) ++ post := by
          rw [hdrop]
          unfold afterTick
          rw [hdj, List.append_assoc,
            dropWhile_append_stop obrace (by simp) (by decide),
            List.append_assoc]
        have hlen2 : (A3.dropWhile isPySpace).length ≤ n := by
          have l1 : (A3.dropWhile isPySpace).length ≤ A3.length :=
      (List.dropWhile_sublist _).length_le
          have l2 := hA3.length_le
          simp only [List.length_cons] at hlen
          omega
        obtain ⟨A, hA, hEq⟩ := ih (A3.dropWhile isPySpace) post hlen2
        refine ⟨A, ?_, ?_⟩
        · exact (hA.trans ((List.dropWhile_sublist _).trans hA3)).trans
            (List.sublist_cons_self c pre2)
        · rw [hstep, sub1, if_pos hcond, hat]
          exact hEq
      · obtain ⟨A, hA, hEq⟩ := ih pre2 post
          (by simp only [List.length_cons] at hlen; omega)
        refine ⟨c :: A, hA.cons₂ c, ?_⟩
        rw [hstep, sub1, if_neg hcond, hEq]
        simp

/-- Freedom from both brace characters. -/
def braceFree (s : List Char) : Prop := obrace ∉ s ∧ cbrace ∉ s

theorem braceFree_of_sublist {A B : List Char} (h : A.Sublist B) (hB : braceFree B) :
    braceFree A :=
  ⟨fun hm => hB.1 (h.subset hm), fun hm => hB.2 (h.subset hm)⟩

theorem braceFree_append {A B : List Char} (hA : braceFree A) (hB : braceFree B) :
    braceFree (A ++ B) := by
  constructor
  · intro hm
    rcases List.mem_append.mp hm with h | h
    · exact hA.1 h
    · exact hB.1 h
  · intro hm
    rcases List.mem_append.mp hm with h | h
    · exact hA.2 h
    · exact hB.2 h

theorem pstrip_decompose (A B core : List Char) (hh : core.head? = some obrace)
    (hl : core.getLast? = some cbrace) :
    pstrip ((A ++ core) ++ B) = (lstrip A ++ core) ++ rstrip B := by
  have hcore : core ≠ [] := by
    intro hn
    rw [hn] at hh
    cases hh
  have h1 : lstrip ((A ++ core) ++ B) = lstrip A ++ (core ++ B) := by
    unfold lstrip
    rw [List.append_assoc]
    exact dropWhile_append_stop obrace
      (by rw [List.head?_append_of_ne_nil _ hcore]; exact hh) (by decide) A
  have h2 : rstrip (lstrip A ++ (core ++ B)) = (lstrip A ++ core) ++ rstrip B := by
    unfold rstrip
    rw [List.reverse_append, List.reverse_append, List.append_assoc]
    have hrevne : core.reverse ≠ [] := by simpa using hcore
    rw [dropWhile_append_stop cbrace
      (by rw [List.head?_append_of_ne_nil _ hrevne, List.head?_reverse]; exact hl)
      (by decide) B.reverse]
    rw [List.reverse_append, List.reverse_append, List.reverse_reverse,
      List.reverse_reverse, List.append_assoc]
  unfold pstrip
  rw [h1, h2]

theorem findCh_decomposed {A B core : List Char} (hA : obrace ∉ A)
    (hh : core.head? = some obrace) :
    findCh obrace ((A ++ core) ++ B) = some A.length := by
  rw [List.append_assoc, findCh_append_of_not_mem hA]
  cases core with
  | nil => cases hh
  | cons a core2 =>
    have ha : a = obrace := by simpa using hh
    subst ha
    rw [List.cons_append, findCh_cons_self]
    simp

theorem rfindCh_decomposed {A B core : List Char} (hB : cbrace ∉ B)
    (hl : core.getLast? = some cbrace) (hcore : core ≠ []) :
    rfindCh cbrace ((A ++ core) ++ B) = some (A.length + core.length - 1) := by
  unfold rfindCh
  rw [List.reverse_append, List.reverse_append,
    findCh_append_of_not_mem (by simpa using hB)]
  cases hrev : core.reverse with
  | nil => exact absurd (by simpa using hrev) hcore
  | cons y ys =>
    have hy : y = cbrace := by
      have hhr := List.head?_reverse core
      rw [hrev, hl] at hhr
      simpa using hhr
    subst hy
    rw [List.cons_append, findCh_cons_self]
    have hclen : core.length = ys.length + 1 := by
      have := congrArg List.length hrev
      simpa using this
    simp [hclen]
    omega

theorem clean_wrapped (pre post J : List Char)
    (hpre : braceFree pre) (hpost : braceFree post)
    (hnt : hasTriple J = false) (hh : J.head? = some obrace)
    (hl : J.getLast? = some cbrace) :
    clean_response ((pre ++ J) ++ post) = .ok J := by
  have hJne : J ≠ [] := by
    intro hn
    rw [hn] at hh
    cases hh
  have hJ1 : 1 ≤ J.length := by
    cases J
    · simp at hJne
    · simp
  have h1 : pstrip ((pre ++ J) ++ post) = (lstrip pre ++ J) ++ rstrip post :=
    pstrip_decompose pre post J hh hl
  obtain ⟨A, hA, h3⟩ := sub1_decompose J hh hl hnt (lstrip pre).length (lstrip pre)
    (rstrip post) le_rfl
  have hct : cleanedText ((pre ++ J) ++ post) = (A ++ J) ++ sub1 (rstrip post) := by
    rw [cleanedText_eq_sub1, h1, h3]
  have hAbf : braceFree A :=
    braceFree_of_sublist (hA.trans (List.dropWhile_sublist _)) hpre
  have hBbf : braceFree (sub1 (rstrip post)) :=
    braceFree_of_sublist ((sub1_sublist _).trans (rstrip_sublist _)) hpost
  unfold clean_response
  rw [hct, findCh_decomposed hAbf.1 hh, rfindCh_decomposed hBbf.2 hl hJne]
  show Except.ok (pstrip ((((A ++ J) ++ sub1 (rstrip post)).take
    (A.length + J.length - 1 + 1)).drop A.length)) = Except.ok J
  rw [show A.length + J.length - 1 + 1 = A.length + J.length by omega,
    List.append_assoc, List.take_append, List.take_left, List.drop_left,
    pstrip_of_braces hh hl]

/-- The wrapping combinations of the spec: no fence, fence with the
language tag, fence without a tag; each combined with a preamble before
and trailing text after. -/
inductive FenceKind
  | bare
  | tagged
  | untagged

/-- Wraps a JSON text in the chosen fence form, with preamble text
before and trailing text after. -/
def wrapResponse : FenceKind → List Char → List Char → List Char → List Char
  | .bare, pre, post, J => (pre ++ J) ++ post
  | .tagged, pre, post, J => ((pre ++ slist "```json\n") ++ J) ++ (slist "\n```" ++ post)
  | .untagged, pre, post, J => ((pre ++ slist "```\n") ++ J) ++ (slist "\n```" ++ post)

/-- C1 (amended): for a Story-shaped JSON text with no outer
whitespace (it begins with the opening brace and ends with the closing
brace — outer whitespace can be pushed into the preamble or trailing
text) and containing no fence marker of three backticks, wrapped in any
of the fence forms with any preamble and trailing text that are free of
braces, `validate` succeeds and returns exactly the object decoded from
the unwrapped JSON. -/
theorem validate_wrapped_story (f : FenceKind) (pre post J : List Char) (v : Json)
    (hpre : braceFree pre) (hpost : braceFree post)
    (hnt : hasTriple J = false)
    (hh : J.head? = some obrace) (hl : J.getLast? = some cbrace)
    (hloads : loads J = some v)
    (hvs : (validate_schema v).1 = .ok ()) :
    (validate (wrapResponse f pre post J)).1 = .ok v := by
  have hclean : clean_response (wrapResponse f pre post J) = .ok J := by
    cases f
    · exact clean_wrapped pre post J hpre hpost hnt hh hl
    · exact clean_wrapped (pre ++ slist "```json\n") (slist "\n```" ++ post) J
        (braceFree_append hpre ⟨by decide, by decide⟩)
        (braceFree_append ⟨by decide, by decide⟩ hpost) hnt hh hl
    · exact clean_wrapped (pre ++ slist "```\n") (slist "\n```" ++ post) J
        (braceFree_append hpre ⟨by decide, by decide⟩)
        (braceFree_append ⟨by decide, by decide⟩ hpost) hnt hh hl
  simp only [validate, hclean, parse_json, hloads]
  rcases hv2 : validate_schema v with ⟨res, effs⟩
  rw [hv2] at hvs
  simp only at hvs
  subst hvs
  rfl

/-- A valid one-slide story text (the spec's concrete scenario). -/
def storyOneText : List Char :=
  slist "\x7b\"team\":\"Lakers\",\"match\":\"Lakers vs Celtics\",\"date\":\"2025-01-01\",\"result\":\"WIN\",\"slides\":[\x7b\"type\":\"headline\",\"text\":\"LAKERS WIN\",\"subtext\":\"A statement victory.\"\x7d]\x7d"

/-- The decoded value of `storyOneText`. -/
def storyOneV : Json :=
  .obj [(js "team", .str (js "Lakers")), (js "match", .str (js "Lakers vs Celtics")),
    (js "date", .str (js "2025-01-01")), (js "result", .str (js "WIN")),
    (js "slides", .arr [.obj [(js "type", .str (js "headline")),
      (js "text", .str (js "LAKERS WIN")),
      (js "subtext", .str (js "A statement victory."))]])]

/-- Witness for C1's amended statement, at the spec's concrete
scenario: a preamble, a tagged fence, a one-slide story. -/
theorem validate_wrapped_story_witness :
    (validate (wrapResponse .tagged (slist "Sure! Here is the JSON:\n")
      (slist "\nHope this helps!") storyOneText)).1 = .ok storyOneV :=
  validate_wrapped_story .tagged (slist "Sure! Here is the JSON:\n")
    (slist "\nHope this helps!") storyOneText storyOneV
    ⟨by decide, by decide⟩ ⟨by decide, by decide⟩ (by decide) rfl rfl rfl rfl

/-- A story text whose team name contains a fence marker. -/
def backtickStoryText : List Char :=
  slist "\x7b\"team\":\"a```b\",\"match\":\"M\",\"date\":\"D\",\"result\":\"WIN\",\"slides\":[\x7b\"type\":\"cta\",\"text\":\"T\",\"subtext\":\"S\"\x7d]\x7d"

/-- The decoded value of `backtickStoryText`. -/
def backtickV : Json :=
  .obj [(js "team", .str (js "a```b")), (js "match", .str (js "M")),
    (js "date", .str (js "D")), (js "result", .str (js "WIN")),
    (js "slides", .arr [.obj [(js "type", .str (js "cta")),
      (js "text", .str (js "T")), (js "subtext", .str (js "S"))]])]

/-- What `validate` actually returns on `backtickStoryText`: the fence
marker inside the team name has been stripped by the cleaning stage. -/
def backtickStrippedV : Json :=
  .obj [(js "team", .str (js "ab")), (js "match", .str (js "M")),
    (js "date", .str (js "D")), (js "result", .str (js "WIN")),
    (js "slides", .arr [.obj [(js "type", .str (js "cta")),
      (js "text", .str (js "T")), (js "subtext", .str (js "S"))]])]

/-- Counterexample for C1 as stated.  First: with an arbitrary preamble
that contains an opening brace, validation of a wrapped valid story
fails outright (the extraction slice starts at the preamble's brace and
no longer parses).  Second: with no wrapping at all, a valid story whose
team name contains three backticks validates to a different object than
the one decoded from the unwrapped JSON (the fence substitution strips
the backticks inside the string).  So the claim fails for arbitrary
preambles and for arbitrary valid Story JSON. -/
theorem validate_wrapped_story_counterexample :
    (loads storyOneText = some storyOneV ∧
      (validate_schema storyOneV).1 = .ok () ∧
      (validate (wrapResponse .bare (slist "see \x7b this ") [] storyOneText)).1 =
        .error (.malformedJson (slist "\x7b this " ++ storyOneText)) ∧
      (validate (wrapResponse .bare (slist "see \x7b this ") [] storyOneText)).1 ≠
        .ok storyOneV) ∧
    (loads backtickStoryText = some backtickV ∧
      (validate_schema backtickV).1 = .ok () ∧
      (validate (wrapResponse .bare [] [] backtickStoryText)).1 = .ok backtickStrippedV ∧
      backtickStrippedV ≠ backtickV) := by
  have h1 : (validate (wrapResponse .bare (slist "see \x7b this ") [] storyOneText)).1 =
      .error (.malformedJson (slist "\x7b this " ++ storyOneText)) := by
    rw [validateF_eq]
    rfl
  have h2 : (validate (wrapResponse .bare [] [] backtickStoryText)).1 =
      .ok backtickStrippedV := by
    rw [validateF_eq]
    rfl
  refine ⟨⟨rfl, rfl, h1, ?_⟩, rfl, rfl, h2, ?_⟩
  · rw [h1]
    intro hc
    cases hc
  · intro hc
    simp only [backtickStrippedV, backtickV, Json.obj.injEq, List.cons.injEq,
      Prod.mk.injEq, Json.str.injEq] at hc
    simp [js] at hc

end SportsStories
